import Mathlib

/-!
Shallow embedding of the chequebook service in
`pkg/settlement/swap/chequebook/chequebook.go` (package `chequebook`).

Machine representation choices:
* Go `common.Address` ([20]byte) is a `List Nat` of byte values.
* Go `*big.Int` is `Int` (arbitrary-precision signed integers in both).
* Go `string` store keys are `List Char`.
* Go `error` results are `Except Err`; the distinguished sentinel errors of
  the source (`ErrOutOfFunds`, `ErrInsufficientFunds`, `ErrNoCheque`,
  `ErrTransactionReverted`, `storage.ErrNotFound`) are constructors, and
  arbitrary external errors are `Err.ext`.
* The external state store (`storage.StateStorer`) is an association list of
  key/value pairs; values are a sum of the two value shapes this service ever
  writes plus an opaque shape for corrupted/foreign data.  `Get` of a typed
  value decodes the stored shape and fails (with a non-NotFound error) on
  mismatch, mirroring a deserialization failure of the external store.
-/

namespace Chequebook

/-- Go `common.Address`: a 20-byte identity, modelled as its list of bytes. -/
abbrev Addr := List Nat

/-- An address value that is actually representable as `common.Address`:
20 bytes, each below 256. -/
def validAddr (a : Addr) : Prop := a.length = 20 ∧ ∀ b ∈ a, b < 256

instance (a : Addr) : Decidable (validAddr a) := by
  unfold validAddr; infer_instance

/-- Source struct `Cheque` (modelled from the spec §3: the type declaration is
not in `src/`; its fields `Chequebook`, `CumulativePayout`, `Beneficiary` are
fixed by the construction at lines 235-239 of `chequebook.go`). -/
structure Cheque where
  chequebook : Addr
  cumulativePayout : Int
  beneficiary : Addr
deriving DecidableEq

/-- Source struct `SignedCheque` (modelled from the spec §3: a `Cheque` plus an
opaque signature, as used at lines 251-254 of `chequebook.go`). -/
structure SignedCheque where
  cheque : Cheque
  signature : List Nat
deriving DecidableEq

/-- Error taxonomy: the sentinel errors declared by the source plus a
constructor for arbitrary external/storage errors (propagated verbatim). -/
inductive Err where
  | outOfFunds
  | insufficientFunds
  | noCheque
  | transactionReverted
  | decode
  | parseKey (key : List Char)
  | ext (code : Nat)
deriving DecidableEq

/-- A value held by the external state store: the two shapes this service
writes (a `Cheque` at a last-issued-cheque key, an integer at the total-issued
key) plus opaque bytes for data this service cannot decode. -/
inductive StoreVal where
  | vCheque (c : Cheque)
  | vInt (n : Int)
  | vRaw (bytes : List Nat)
deriving DecidableEq

/-- The external `storage.StateStorer`, modelled as an association list from
keys to values (first binding for a key wins on lookup). -/
structure StateStore where
  entries : List (List Char × StoreVal)
deriving DecidableEq

/-- Replace the first binding of `k` (or append a new one): the store's `Put`. -/
def putList : List (List Char × StoreVal) → List Char → StoreVal → List (List Char × StoreVal)
  | [], k, v => [(k, v)]
  | (k1, v1) :: rest, k, v =>
    if k1 = k then (k, v) :: rest else (k1, v1) :: putList rest k v

/-- Store `Put`. -/
def StateStore.put (s : StateStore) (k : List Char) (v : StoreVal) : StateStore :=
  ⟨putList s.entries k v⟩

/-- Store `Get`: the raw stored value, `none` for `storage.ErrNotFound`. -/
def StateStore.get (s : StateStore) (k : List Char) : Option StoreVal :=
  (s.entries.find? (fun kv => decide (kv.1 = k))).map (fun kv => kv.2)

/-- Does `s` start with `pat`?  (Used to model prefix iteration and
`strings.SplitAfter` occurrence search.) -/
def hasLead : List Char → List Char → Bool
  | [], _ => true
  | _ :: _, [] => false
  | p :: pt, c :: ct => decide (p = c) && hasLead pt ct

/-- Store `Iterate`: visit every binding whose key starts with `pfx`, in store
order. -/
def StateStore.iterate (s : StateStore) (pfx : List Char) : List (List Char × StoreVal) :=
  s.entries.filter (fun kv => hasLead pfx kv.1)

/-- Source constant `lastIssuedChequeKeyPrefix` (line 26). -/
def lastIssuedKeyBase : List Char := "chequebook_last_issued_cheque_".toList

/-- Source constant `totalIssuedKey` (line 27). -/
def totalIssuedKey : List Char := "chequebook_total_issued_".toList

/-- Lowercase hex digit for a nibble, as produced by Go `fmt %x`. -/
def hexDigitChar (n : Nat) : Char :=
  if n < 10 then Char.ofNat (48 + n) else Char.ofNat (87 + n)

/-- The two lowercase hex digits of one byte (Go `fmt %x` on a byte). -/
def encodeByte (b : Nat) : List Char :=
  [hexDigitChar (b / 16), hexDigitChar (b % 16)]

/-- Go `fmt.Sprintf("%x", beneficiary)` on a byte array: the concatenation of
each byte's two lowercase hex digits. -/
def hexEncode (bs : List Nat) : List Char :=
  (bs.map encodeByte).flatten

/-- Source function `lastIssuedChequeKey` (lines 200-202). -/
def lastIssuedChequeKey (beneficiary : Addr) : List Char :=
  lastIssuedKeyBase ++ hexEncode beneficiary

/-- Numeric value of one hex digit character (Go `encoding/hex` digit table,
accepting `0-9`, `a-f`, `A-F`). -/
def hexCharVal (c : Char) : Option Nat :=
  if '0' ≤ c ∧ c ≤ '9' then some (c.toNat - 48)
  else if 'a' ≤ c ∧ c ≤ 'f' then some (c.toNat - 87)
  else if 'A' ≤ c ∧ c ≤ 'F' then some (c.toNat - 55)
  else none

/-- Go `common.Hex2Bytes` / `hex.DecodeString` with the error ignored: decode
hex digit pairs from the left, stopping at the first invalid digit or leftover
single digit and returning the bytes decoded so far. -/
def decodeHexBytes : List Char → List Nat
  | c1 :: c2 :: rest =>
    match hexCharVal c1, hexCharVal c2 with
    | some hi, some lo => (16 * hi + lo) :: decodeHexBytes rest
    | _, _ => []
  | _ => []

/-- Go `has0xPrefix` handling inside `common.FromHex`: strip a leading
`0x`/`0X` marker if present. -/
def stripHexMark (s : List Char) : List Char :=
  match s with
  | c1 :: c2 :: rest => if c1 = '0' ∧ (c2 = 'x' ∨ c2 = 'X') then rest else c1 :: c2 :: rest
  | t => t

/-- Go `common.FromHex`: strip the `0x` marker, left-pad an odd-length string
with `0`, then decode. -/
def fromHex (s : List Char) : List Nat :=
  decodeHexBytes
    (if (stripHexMark s).length % 2 = 1 then '0' :: stripHexMark s else stripHexMark s)

/-- Go `common.BytesToAddress` / `Address.SetBytes`: keep the last 20 bytes and
left-pad with zero bytes to exactly 20. -/
def bytesToAddress (bs : List Nat) : Addr :=
  List.replicate (20 - (bs.drop (bs.length - 20)).length) 0 ++ bs.drop (bs.length - 20)

/-- Go `common.HexToAddress`.  Note that it is total: it never reports a
failure, it simply decodes as many hex digit pairs as it can. -/
def hexToAddress (s : List Char) : Addr :=
  bytesToAddress (fromHex s)

/-- First index at which `pat` occurs in `s` (Go `strings.Index` semantics,
leftmost occurrence), as used by `strings.SplitAfter`. -/
def findSub : List Char → List Char → Option Nat
  | [], pat => if hasLead pat [] then some 0 else none
  | c :: t, pat =>
    if hasLead pat (c :: t) then some 0
    else (findSub t pat).map (fun i => i + 1)

/-- Worker for `splitAfter` with explicit fuel (the fuel is an upper bound on
the number of splits; `splitAfter` passes `s.length`, which always suffices for
a non-empty pattern). -/
def splitAfterAux (pat : List Char) : Nat → List Char → List (List Char)
  | 0, s => [s]
  | fuel + 1, s =>
    match findSub s pat with
    | none => [s]
    | some i => s.take (i + pat.length) :: splitAfterAux pat fuel (s.drop (i + pat.length))

/-- Go `strings.SplitAfter(s, pat)` for a non-empty `pat`: split `s` after each
non-overlapping occurrence of `pat`. -/
def splitAfter (s pat : List Char) : List (List Char) :=
  splitAfterAux pat s.length s

/-- Source function `keyBeneficiary` (lines 297-305): split the key after the
occurrences of the reserved key base; unless that yields exactly two parts the
key is rejected, otherwise the suffix is decoded with `common.HexToAddress`.
The caller's error wrapping (line 313) is folded into `Err.parseKey`. -/
def keyBeneficiary (key : List Char) (base : List Char) : Except Err Addr :=
  match splitAfter key base with
  | [_, sfx] => .ok (hexToAddress sfx)
  | _ => .error (.parseKey key)

/-- Decoding a stored value as `*big.Int` (the shape written at the
total-issued key); any other shape is a deserialization failure, which the
store reports as an error distinct from `storage.ErrNotFound`. -/
def decodeInt : StoreVal → Except Err Int
  | .vInt n => .ok n
  | _ => .error .decode

/-- Decoding a stored value as `*SignedCheque`.  `Issue` (line 259) stores the
bare `Cheque`, so reading it back as a `SignedCheque` (line 287) yields the
stored cheque with an empty signature, mirroring that `SignedCheque` embeds
`Cheque` and the stored encoding carries no signature field. -/
def decodeSignedCheque : StoreVal → Except Err SignedCheque
  | .vCheque c => .ok ⟨c, []⟩
  | _ => .error .decode

/-- Source method `service.totalIssued` (lines 273-282): read the counter,
treating `storage.ErrNotFound` as zero and propagating any other error. -/
def totalIssued (store : StateStore) : Except Err Int :=
  match store.get totalIssuedKey with
  | none => .ok 0
  | some v => decodeInt v

/-- Source method `service.LastCheque` (lines 285-295): point lookup of the
beneficiary's ledger entry; `storage.ErrNotFound` becomes `ErrNoCheque`, any
other error is propagated unmodified. -/
def lastCheque (store : StateStore) (beneficiary : Addr) : Except Err SignedCheque :=
  match store.get (lastIssuedChequeKey beneficiary) with
  | none => .error .noCheque
  | some v => decodeSignedCheque v

/-- The calldata payloads this service ever packs: an erc20 `transfer` (from
`Deposit`, line 133) and a chequebook `withdraw` (from `Withdraw`, line 344).
ABI byte-level encoding is external to `src/`; the payloads are modelled by
their abstract syntax. -/
inductive CallData where
  | transfer (dest : Addr) (amount : Int)
  | withdrawCall (amount : Int)
deriving DecidableEq

/-- Source struct `TxRequest` as filled in by this service (`GasPrice`/
`GasLimit` are always left at their zero values and are omitted). -/
structure TxRequest where
  dest : Addr
  data : CallData
  value : Int
deriving DecidableEq

/-- Go `common.Hash` identifying a submitted transaction. -/
abbrev TxHash := Nat

/-- The receipt returned by `transactionService.WaitForReceipt`. -/
structure Receipt where
  status : Nat
deriving DecidableEq

/-- The read-only chain collaborators of one call (all fields of the Go
`service` struct that reach the blockchain), with each query's outcome for the
duration of the call: `chequebookInstance.Balance`,
`chequebookInstance.TotalPaidOut`, `erc20Instance.BalanceOf(ownerAddress)`,
`transactionService.Send` and `transactionService.WaitForReceipt`. -/
structure ChainBackend where
  balance : Except Err Int
  totalPaidOut : Except Err Int
  ownerTokenBalance : Except Err Int
  send : TxRequest → Except Err TxHash
  waitForReceipt : TxHash → Except Err Receipt

/-- Source method `service.AvailableBalance` (lines 162-185): local counter
first, then the two chain reads, then `balance + totalPaidOut - totalIssued`.
The source performs no store write in this method, which the embedding
reflects by not returning a store. -/
def availableBalance (store : StateStore) (backend : ChainBackend) : Except Err Int :=
  match totalIssued store with
  | .error e => .error e
  | .ok ti =>
    match backend.balance with
    | .error e => .error e
    | .ok bal =>
      match backend.totalPaidOut with
      | .error e => .error e
      | .ok tpo => .ok (bal + tpo - ti)

/-- Lines 220-229 of `Issue`: the baseline cumulative payout, `0` when the
beneficiary has no previous cheque (`ErrNoCheque`), the previous cheque's
`CumulativePayout` otherwise; any other `LastCheque` error is propagated. -/
def chequePayoutBaseline (store : StateStore) (beneficiary : Addr) : Except Err Int :=
  match lastCheque store beneficiary with
  | .ok lc => .ok lc.cheque.cumulativePayout
  | .error e => if e = .noCheque then .ok 0 else .error e

/-- Source method `service.Issue` (lines 206-270), returning the store after
the call together with the call's outcome.  Mirrors the source order exactly:
available-balance check (`amount > available` fails with `ErrOutOfFunds`),
baseline lookup, cheque construction, signing, delivery via `sendChequeFunc`,
and only then the two persistent writes (ledger entry, then counter). -/
def issue (store : StateStore) (backend : ChainBackend) (address : Addr)
    (signFn : Cheque → Except Err (List Nat)) (beneficiary : Addr) (amount : Int)
    (sendChequeFunc : SignedCheque → Except Err Unit) :
    StateStore × Except Err Unit :=
  match availableBalance store backend with
  | .error e => (store, .error e)
  | .ok avail =>
    if avail < amount then (store, .error .outOfFunds)
    else
      match chequePayoutBaseline store beneficiary with
      | .error e => (store, .error e)
      | .ok base =>
        let cumulativePayout := base + amount
        let cheque : Cheque := ⟨address, cumulativePayout, beneficiary⟩
        match signFn cheque with
        | .error e => (store, .error e)
        | .ok sig =>
          match sendChequeFunc ⟨cheque, sig⟩ with
          | .error e => (store, .error e)
          | .ok _ =>
            let store1 := store.put (lastIssuedChequeKey beneficiary) (.vCheque cheque)
            match totalIssued store1 with
            | .error e => (store1, .error e)
            | .ok ti => (store1.put totalIssuedKey (.vInt (ti + amount)), .ok ())

/-- Membership test on the result map being built by `LastCheques`
(`if _, ok := result[addr]; !ok` at line 316). -/
def containsAddr (m : List (Addr × SignedCheque)) (a : Addr) : Bool :=
  m.any (fun p => decide (p.1 = a))

/-- The iteration callback loop of `service.LastCheques` (lines 310-326): for
each visited key, decode the beneficiary (aborting the iteration with the
wrapped parse error on failure), skip beneficiaries already in the result, and
otherwise fetch their last cheque (aborting on any fetch error). -/
def lastChequesLoop (store : StateStore) :
    List (List Char × StoreVal) → List (Addr × SignedCheque) →
    Except Err (List (Addr × SignedCheque))
  | [], result => .ok result
  | (key, _) :: rest, result =>
    match keyBeneficiary key lastIssuedKeyBase with
    | .error _ => .error (.parseKey key)
    | .ok addr =>
      if containsAddr result addr then lastChequesLoop store rest result
      else
        match lastCheque store addr with
        | .error e => .error e
        | .ok lc => lastChequesLoop store rest (result ++ [(addr, lc)])

/-- Source method `service.LastCheques` (lines 308-331): iterate the store keys
under the reserved base and build the per-beneficiary map; any callback error
aborts the enumeration and the method returns only that error. -/
def lastCheques (store : StateStore) : Except Err (List (Addr × SignedCheque)) :=
  lastChequesLoop store (store.iterate lastIssuedKeyBase) []

/-- Source method `service.Deposit` (lines 120-152): check the owner's own
token balance (`ErrInsufficientFunds` when it is below `amount`), then submit
an erc20 `transfer` transaction to the chequebook.  ABI packing of the
constant, well-formed call never fails and is modelled as the total
constructor `CallData.transfer`. -/
def deposit (backend : ChainBackend) (erc20Address address : Addr) (amount : Int) :
    Except Err TxHash :=
  match backend.ownerTokenBalance with
  | .error e => .error e
  | .ok bal =>
    if bal < amount then .error .insufficientFunds
    else backend.send ⟨erc20Address, .transfer address amount, 0⟩

/-- Source method `service.Withdraw` (lines 333-363): check the available
balance (`ErrInsufficientFunds` when it is below `amount`), then submit a
`withdraw` transaction to the chequebook contract. -/
def withdraw (store : StateStore) (backend : ChainBackend) (address : Addr) (amount : Int) :
    Except Err TxHash :=
  match availableBalance store backend with
  | .error e => .error e
  | .ok avail =>
    if avail < amount then .error .insufficientFunds
    else backend.send ⟨address, .withdrawCall amount, 0⟩

/-- Source method `service.WaitForDeposit` (lines 188-197): wait for the
receipt and report a non-success status as `ErrTransactionReverted`. -/
def waitForDeposit (backend : ChainBackend) (txHash : TxHash) : Except Err Unit :=
  match backend.waitForReceipt txHash with
  | .error e => .error e
  | .ok receipt => if receipt.status ≠ 1 then .error .transactionReverted else .ok ()

/-! ## Store lemmas -/

theorem findList_putList_self (l : List (List Char × StoreVal)) (k : List Char) (v : StoreVal) :
    (putList l k v).find? (fun kv => decide (kv.1 = k)) = some (k, v) := by
  induction l with
  | nil => simp [putList]
  | cons kv1 rest ih =>
    obtain ⟨k1, v1⟩ := kv1
    by_cases h : k1 = k
    · simp [putList, h]
    · simp [putList, h, List.find?, ih]

theorem findList_putList_other (l : List (List Char × StoreVal)) (k k2 : List Char)
    (v : StoreVal) (h : k2 ≠ k) :
    (putList l k v).find? (fun kv => decide (kv.1 = k2)) =
      l.find? (fun kv => decide (kv.1 = k2)) := by
  have hk : decide (k = k2) = false := by
    simp only [decide_eq_false_iff_not]
    exact fun hc => h hc.symm
  induction l with
  | nil => simp [putList, List.find?, hk]
  | cons kv1 rest ih =>
    obtain ⟨k1, v1⟩ := kv1
    by_cases h1 : k1 = k
    · subst h1
      simp [putList, List.find?, hk]
    · by_cases h2 : k1 = k2
      · subst h2
        simp [putList, h1, List.find?]
      · simp [putList, h1, List.find?, h2, ih]

theorem get_put_self (s : StateStore) (k : List Char) (v : StoreVal) :
    (s.put k v).get k = some v := by
  simp [StateStore.put, StateStore.get, findList_putList_self]

theorem get_put_other (s : StateStore) (k k2 : List Char) (v : StoreVal) (h : k2 ≠ k) :
    (s.put k v).get k2 = s.get k2 := by
  simp [StateStore.put, StateStore.get, findList_putList_other _ _ _ _ h]

theorem get_some_exists_entry (s : StateStore) (k : List Char) (v : StoreVal)
    (h : s.get k = some v) : ∃ kv ∈ s.entries, kv.1 = k ∧ kv.2 = v := by
  unfold StateStore.get at h
  cases hf : s.entries.find? (fun kv => decide (kv.1 = k)) with
  | none => rw [hf] at h; simp at h
  | some kv0 =>
    rw [hf] at h
    have hv : kv0.2 = v := by simpa using h
    refine ⟨kv0, List.mem_of_find?_eq_some hf, ?_, hv⟩
    have := List.find?_some hf
    simpa using this

/-! ## Key lemmas -/

theorem lastIssuedKeyBase_length : lastIssuedKeyBase.length = 30 := by decide

theorem totalIssuedKey_length : totalIssuedKey.length = 24 := by decide

theorem totalIssuedKey_ne_chequeKey (b : Addr) : totalIssuedKey ≠ lastIssuedChequeKey b := by
  intro h
  have hlen : totalIssuedKey.length = (lastIssuedChequeKey b).length := by rw [h]
  rw [totalIssuedKey_length] at hlen
  unfold lastIssuedChequeKey at hlen
  rw [List.length_append, lastIssuedKeyBase_length] at hlen
  omega

theorem totalIssued_put_chequeKey (s : StateStore) (b : Addr) (v : StoreVal) :
    totalIssued (s.put (lastIssuedChequeKey b) v) = totalIssued s := by
  unfold totalIssued
  rw [get_put_other _ _ _ _ (totalIssuedKey_ne_chequeKey b)]

theorem totalIssued_put_counter (s : StateStore) (n : Int) :
    totalIssued (s.put totalIssuedKey (.vInt n)) = .ok n := by
  unfold totalIssued
  rw [get_put_self]
  rfl

theorem lastCheque_after_issue_writes (s : StateStore) (b : Addr) (c : Cheque) (w : StoreVal) :
    lastCheque ((s.put (lastIssuedChequeKey b) (.vCheque c)).put totalIssuedKey w) b =
      .ok ⟨c, []⟩ := by
  unfold lastCheque
  rw [get_put_other _ _ _ _ (fun h => totalIssuedKey_ne_chequeKey b h.symm), get_put_self]
  rfl

theorem totalIssued_ok_of_availableBalance (store : StateStore) (backend : ChainBackend)
    (avail : Int) (h : availableBalance store backend = .ok avail) :
    ∃ ti, totalIssued store = .ok ti := by
  unfold availableBalance at h
  cases hti : totalIssued store with
  | error e => rw [hti] at h; simp at h
  | ok ti => exact ⟨ti, rfl⟩

/-! ## C1: available balance formula -/

/-- C1: for every store and every successful pair of oracle reads,
`AvailableBalance` returns exactly `onChainBalance + totalPaidOut -
totalIssued`, where the locally stored total-issued counter is taken as `0`
when its key is absent from the store.  (The embedding of `availableBalance`
returns no store, mirroring that the source method performs no write.) -/
theorem availableBalance_formula (store : StateStore) (backend : ChainBackend)
    (bal tpo ti : Int)
    (hb : backend.balance = .ok bal) (hp : backend.totalPaidOut = .ok tpo)
    (hti : (store.get totalIssuedKey = none ∧ ti = 0) ∨
           store.get totalIssuedKey = some (.vInt ti)) :
    availableBalance store backend = .ok (bal + tpo - ti) := by
  have h : totalIssued store = .ok ti := by
    rcases hti with ⟨h1, h2⟩ | h1
    · subst h2; unfold totalIssued; rw [h1]
    · unfold totalIssued; rw [h1]; rfl
  simp [availableBalance, h, hb, hp]

/-- Witness for C1 at a concrete store (counter holding 5) and oracle
(`balance = 100`, `totalPaidOut = 7`): the result is `100 + 7 - 5`. -/
theorem availableBalance_formula_witness :
    availableBalance ⟨[(totalIssuedKey, .vInt 5)]⟩
      ⟨.ok 100, .ok 7, .ok 0, fun _ => .ok 0, fun _ => .ok ⟨1⟩⟩ = .ok (100 + 7 - 5) :=
  availableBalance_formula _ _ 100 7 5 rfl rfl (Or.inr rfl)

/-! ## C2: out-of-funds issuance -/

/-- C2: whenever the available balance computed at the start of `Issue` is
defined and strictly smaller than `amount`, `Issue` returns `ErrOutOfFunds`
and the returned store is exactly the pre-call store (so the beneficiary's
last-cheque entry and the total-issued counter are unchanged).  The statement
quantifies over all signer and delivery capabilities: the outcome is the same
for every choice, so neither capability can have been consulted. -/
theorem issue_outOfFunds_no_state_change (store : StateStore) (backend : ChainBackend)
    (address b : Addr) (amount avail : Int)
    (hab : availableBalance store backend = .ok avail) (hlt : avail < amount) :
    ∀ (signFn : Cheque → Except Err (List Nat)) (send : SignedCheque → Except Err Unit),
      issue store backend address signFn b amount send = (store, .error .outOfFunds) := by
  intro signFn send
  simp [issue, hab, hlt]

/-- Witness for C2: balance 10, no cheques issued, requesting 11 fails with
`ErrOutOfFunds` and leaves the (empty) store untouched. -/
theorem issue_outOfFunds_no_state_change_witness :
    availableBalance ⟨[]⟩ ⟨.ok 10, .ok 0, .ok 0, fun _ => .ok 0, fun _ => .ok ⟨1⟩⟩ = .ok 10 ∧
    issue ⟨[]⟩ ⟨.ok 10, .ok 0, .ok 0, fun _ => .ok 0, fun _ => .ok ⟨1⟩⟩
        (List.replicate 20 1) (fun _ => .ok [2]) (List.replicate 20 3) 11
        (fun _ => .ok ()) = (⟨[]⟩, .error .outOfFunds) := by
  refine ⟨rfl, ?_⟩
  exact issue_outOfFunds_no_state_change ⟨[]⟩
    ⟨.ok 10, .ok 0, .ok 0, fun _ => .ok 0, fun _ => .ok ⟨1⟩⟩
    (List.replicate 20 1) (List.replicate 20 3) 11 10 rfl (by decide)
    (fun _ => .ok [2]) (fun _ => .ok ())

/-! ## C3: failed delivery -/

/-- C3: if the delivery capability rejects the signed cheque with error `e`,
`Issue` returns exactly `e` and the returned store is the pre-call store; in
particular the beneficiary's last-cheque entry and the total-issued counter
read the same as before the call. -/
theorem issue_delivery_failure_no_state_change (store : StateStore) (backend : ChainBackend)
    (address b : Addr) (signFn : Cheque → Except Err (List Nat))
    (send : SignedCheque → Except Err Unit) (amount avail base : Int)
    (sig : List Nat) (e : Err)
    (hab : availableBalance store backend = .ok avail)
    (hle : ¬ avail < amount)
    (hbase : chequePayoutBaseline store b = .ok base)
    (hsig : signFn ⟨address, base + amount, b⟩ = .ok sig)
    (hsend : send ⟨⟨address, base + amount, b⟩, sig⟩ = .error e) :
    issue store backend address signFn b amount send = (store, .error e) ∧
    lastCheque (issue store backend address signFn b amount send).1 b = lastCheque store b ∧
    totalIssued (issue store backend address signFn b amount send).1 = totalIssued store := by
  have h : issue store backend address signFn b amount send = (store, .error e) := by
    simp [issue, hab, hle, hbase, hsig, hsend]
  exact ⟨h, by rw [h], by rw [h]⟩

/-- Witness for C3: a delivery capability that always fails with `ext 9` makes
`Issue` return `ext 9` and leave the pre-call store (one previous cheque of
cumulative payout 30, counter 30) untouched. -/
theorem issue_delivery_failure_no_state_change_witness :
    issue ⟨[(lastIssuedChequeKey (List.replicate 20 0),
             .vCheque ⟨List.replicate 20 1, 30, List.replicate 20 0⟩),
            (totalIssuedKey, .vInt 30)]⟩
        ⟨.ok 100, .ok 0, .ok 0, fun _ => .ok 0, fun _ => .ok ⟨1⟩⟩
        (List.replicate 20 1) (fun _ => .ok [2]) (List.replicate 20 0) 40
        (fun _ => .error (.ext 9)) =
      (⟨[(lastIssuedChequeKey (List.replicate 20 0),
          .vCheque ⟨List.replicate 20 1, 30, List.replicate 20 0⟩),
         (totalIssuedKey, .vInt 30)]⟩, .error (.ext 9)) := by
  exact (issue_delivery_failure_no_state_change
    ⟨[(lastIssuedChequeKey (List.replicate 20 0),
       .vCheque ⟨List.replicate 20 1, 30, List.replicate 20 0⟩),
      (totalIssuedKey, .vInt 30)]⟩
    ⟨.ok 100, .ok 0, .ok 0, fun _ => .ok 0, fun _ => .ok ⟨1⟩⟩
    (List.replicate 20 1) (List.replicate 20 0) (fun _ => .ok [2])
    (fun _ => .error (.ext 9)) 40 70 30 [2] (.ext 9)
    rfl (by decide) rfl rfl rfl).1

/-! ## Successful issuance -/

/-- The full effect of a successful `Issue`: the new cheque (cumulative payout
`base + amount`) is written at the beneficiary's key, then the counter is
rewritten to its old value plus `amount`. -/
theorem issue_success_eq (store : StateStore) (backend : ChainBackend)
    (address b : Addr) (signFn : Cheque → Except Err (List Nat))
    (send : SignedCheque → Except Err Unit) (amount avail base ti : Int) (sig : List Nat)
    (hab : availableBalance store backend = .ok avail)
    (hle : ¬ avail < amount)
    (hbase : chequePayoutBaseline store b = .ok base)
    (hsig : signFn ⟨address, base + amount, b⟩ = .ok sig)
    (hsend : send ⟨⟨address, base + amount, b⟩, sig⟩ = .ok ())
    (hti : totalIssued store = .ok ti) :
    issue store backend address signFn b amount send =
      ((store.put (lastIssuedChequeKey b) (.vCheque ⟨address, base + amount, b⟩)).put
        totalIssuedKey (.vInt (ti + amount)), .ok ()) := by
  simp [issue, hab, hle, hbase, hsig, hsend, totalIssued_put_chequeKey, hti]

/-- The baseline is the previous cheque's cumulative payout. -/
theorem baseline_of_lastCheque (store : StateStore) (b : Addr) (base : Int)
    (hbase : chequePayoutBaseline store b = .ok base) :
    ∀ lc, lastCheque store b = .ok lc → base = lc.cheque.cumulativePayout := by
  intro lc hlc
  unfold chequePayoutBaseline at hbase
  rw [hlc] at hbase
  injection hbase with h
  exact h.symm

/-- The baseline is zero when the beneficiary has no previous cheque. -/
theorem baseline_of_noCheque (store : StateStore) (b : Addr) (base : Int)
    (hbase : chequePayoutBaseline store b = .ok base) :
    lastCheque store b = .error .noCheque → base = 0 := by
  intro h
  unfold chequePayoutBaseline at hbase
  rw [h] at hbase
  simp at hbase
  omega

/-! ## C4: cumulative payout of a successful issuance -/

/-- C4: a successful `Issue` persists, as the beneficiary's last cheque, a
cheque whose cumulative payout is the previous baseline plus `amount`
(baseline `0` when no prior cheque exists, the prior cheque's cumulative
payout otherwise), and a subsequent `LastCheque` returns it; moreover, when
`amount` is positive, the new cumulative payout is at least the previous
cheque's, so the per-beneficiary sequence of cumulative payouts is
non-decreasing across successful issuances. -/
theorem issue_success_cumulativePayout (store : StateStore) (backend : ChainBackend)
    (address b : Addr) (signFn : Cheque → Except Err (List Nat))
    (send : SignedCheque → Except Err Unit) (amount avail base ti : Int) (sig : List Nat)
    (hab : availableBalance store backend = .ok avail)
    (hle : ¬ avail < amount)
    (hbase : chequePayoutBaseline store b = .ok base)
    (hsig : signFn ⟨address, base + amount, b⟩ = .ok sig)
    (hsend : send ⟨⟨address, base + amount, b⟩, sig⟩ = .ok ())
    (hti : totalIssued store = .ok ti) :
    (issue store backend address signFn b amount send).2 = .ok () ∧
    lastCheque (issue store backend address signFn b amount send).1 b =
      .ok ⟨⟨address, base + amount, b⟩, []⟩ ∧
    (lastCheque store b = .error .noCheque → base = 0) ∧
    (∀ lc, lastCheque store b = .ok lc → base = lc.cheque.cumulativePayout) ∧
    (0 < amount → ∀ lc, lastCheque store b = .ok lc →
       lc.cheque.cumulativePayout ≤ base + amount) := by
  have heq := issue_success_eq store backend address b signFn send amount avail base ti sig
    hab hle hbase hsig hsend hti
  refine ⟨by rw [heq], by rw [heq]; exact lastCheque_after_issue_writes _ _ _ _,
    baseline_of_noCheque store b base hbase, baseline_of_lastCheque store b base hbase, ?_⟩
  intro hpos lc hlc
  have h := baseline_of_lastCheque store b base hbase lc hlc
  omega

/-- Witness for C4: with a previous cheque of cumulative payout 30, counter 30
and chain balance 100, issuing 40 succeeds and the persisted cheque carries
cumulative payout 70. -/
theorem issue_success_cumulativePayout_witness :
    (issue ⟨[(lastIssuedChequeKey (List.replicate 20 0),
              .vCheque ⟨List.replicate 20 1, 30, List.replicate 20 0⟩),
             (totalIssuedKey, .vInt 30)]⟩
        ⟨.ok 100, .ok 0, .ok 0, fun _ => .ok 0, fun _ => .ok ⟨1⟩⟩
        (List.replicate 20 1) (fun _ => .ok [2]) (List.replicate 20 0) 40
        (fun _ => .ok ())).2 = .ok () ∧
    lastCheque (issue ⟨[(lastIssuedChequeKey (List.replicate 20 0),
              .vCheque ⟨List.replicate 20 1, 30, List.replicate 20 0⟩),
             (totalIssuedKey, .vInt 30)]⟩
        ⟨.ok 100, .ok 0, .ok 0, fun _ => .ok 0, fun _ => .ok ⟨1⟩⟩
        (List.replicate 20 1) (fun _ => .ok [2]) (List.replicate 20 0) 40
        (fun _ => .ok ())).1 (List.replicate 20 0) =
      .ok ⟨⟨List.replicate 20 1, 30 + 40, List.replicate 20 0⟩, []⟩ := by
  have h := issue_success_cumulativePayout
    ⟨[(lastIssuedChequeKey (List.replicate 20 0),
       .vCheque ⟨List.replicate 20 1, 30, List.replicate 20 0⟩),
      (totalIssuedKey, .vInt 30)]⟩
    ⟨.ok 100, .ok 0, .ok 0, fun _ => .ok 0, fun _ => .ok ⟨1⟩⟩
    (List.replicate 20 1) (List.replicate 20 0) (fun _ => .ok [2]) (fun _ => .ok ())
    40 70 30 30 [2] rfl (by decide) rfl rfl rfl rfl
  exact ⟨h.1, h.2.1⟩

/-! ## C10: amount positivity is not enforced -/

/-- C10: `Issue` never checks `amount > 0`: any `amount` with
`¬ available < amount` passes the funds check, and with a negative `amount`
the call still succeeds, persisting a cheque whose cumulative payout is
strictly below the previous baseline and rewriting the total-issued counter
to a strictly smaller value. -/
theorem issue_accepts_nonpositive_amount (store : StateStore) (backend : ChainBackend)
    (address b : Addr) (signFn : Cheque → Except Err (List Nat))
    (send : SignedCheque → Except Err Unit) (amount avail base ti : Int) (sig : List Nat)
    (hab : availableBalance store backend = .ok avail)
    (hle : ¬ avail < amount)
    (hneg : amount < 0)
    (hbase : chequePayoutBaseline store b = .ok base)
    (hsig : signFn ⟨address, base + amount, b⟩ = .ok sig)
    (hsend : send ⟨⟨address, base + amount, b⟩, sig⟩ = .ok ())
    (hti : totalIssued store = .ok ti) :
    (issue store backend address signFn b amount send).2 = .ok () ∧
    lastCheque (issue store backend address signFn b amount send).1 b =
      .ok ⟨⟨address, base + amount, b⟩, []⟩ ∧
    base + amount < base ∧
    totalIssued (issue store backend address signFn b amount send).1 = .ok (ti + amount) ∧
    ti + amount < ti := by
  have heq := issue_success_eq store backend address b signFn send amount avail base ti sig
    hab hle hbase hsig hsend hti
  refine ⟨by rw [heq], by rw [heq]; exact lastCheque_after_issue_writes _ _ _ _,
    by omega, ?_, by omega⟩
  rw [heq]
  exact totalIssued_put_counter _ _

/-- Witness for C10: with a previous cheque of cumulative payout 30, counter
30 and chain balance 100, issuing the negative amount -5 succeeds, persists a
cheque with cumulative payout 25 < 30 and rewrites the counter to 25 < 30. -/
theorem issue_accepts_nonpositive_amount_witness :
    (issue ⟨[(lastIssuedChequeKey (List.replicate 20 0),
              .vCheque ⟨List.replicate 20 1, 30, List.replicate 20 0⟩),
             (totalIssuedKey, .vInt 30)]⟩
        ⟨.ok 100, .ok 0, .ok 0, fun _ => .ok 0, fun _ => .ok ⟨1⟩⟩
        (List.replicate 20 1) (fun _ => .ok [2]) (List.replicate 20 0) (-5)
        (fun _ => .ok ())).2 = .ok () ∧
    totalIssued (issue ⟨[(lastIssuedChequeKey (List.replicate 20 0),
              .vCheque ⟨List.replicate 20 1, 30, List.replicate 20 0⟩),
             (totalIssuedKey, .vInt 30)]⟩
        ⟨.ok 100, .ok 0, .ok 0, fun _ => .ok 0, fun _ => .ok ⟨1⟩⟩
        (List.replicate 20 1) (fun _ => .ok [2]) (List.replicate 20 0) (-5)
        (fun _ => .ok ())).1 = .ok (30 + (-5)) := by
  have h := issue_accepts_nonpositive_amount
    ⟨[(lastIssuedChequeKey (List.replicate 20 0),
       .vCheque ⟨List.replicate 20 1, 30, List.replicate 20 0⟩),
      (totalIssuedKey, .vInt 30)]⟩
    ⟨.ok 100, .ok 0, .ok 0, fun _ => .ok 0, fun _ => .ok ⟨1⟩⟩
    (List.replicate 20 1) (List.replicate 20 0) (fun _ => .ok [2]) (fun _ => .ok ())
    (-5) 70 30 30 [2] rfl (by decide) (by decide) rfl rfl rfl rfl
  exact ⟨h.1, h.2.2.2.1⟩

/-! ## C5: the counter as the sum of successful issuance amounts

A sequence of public operations on one service instance.  Each call carries
its own chain collaborators (the chain may move between calls); only `Issue`
returns a store, because only `Issue` contains a store write in the source. -/

inductive Op where
  | issueOp (backend : ChainBackend) (signFn : Cheque → Except Err (List Nat))
      (beneficiary : Addr) (amount : Int) (send : SignedCheque → Except Err Unit)
  | availableBalanceOp (backend : ChainBackend)
  | lastChequeOp (beneficiary : Addr)
  | lastChequesOp
  | depositOp (backend : ChainBackend) (amount : Int)
  | withdrawOp (backend : ChainBackend) (amount : Int)
  | waitForDepositOp (backend : ChainBackend) (txHash : TxHash)

/-- The visible result of one operation. -/
inductive OpOutcome where
  | issued (r : Except Err Unit)
  | balanceRead (r : Except Err Int)
  | chequeRead (r : Except Err SignedCheque)
  | chequesRead (r : Except Err (List (Addr × SignedCheque)))
  | txSubmitted (r : Except Err TxHash)
  | depositWaited (r : Except Err Unit)

/-- Run one operation against the store, returning the store afterwards and
the operation's outcome. -/
def runOp (address erc20Address : Addr) (store : StateStore) : Op → StateStore × OpOutcome
  | .issueOp backend signFn b amount send =>
    let r := issue store backend address signFn b amount send
    (r.1, .issued r.2)
  | .availableBalanceOp backend => (store, .balanceRead (availableBalance store backend))
  | .lastChequeOp b => (store, .chequeRead (lastCheque store b))
  | .lastChequesOp => (store, .chequesRead (lastCheques store))
  | .depositOp backend amount =>
    (store, .txSubmitted (deposit backend erc20Address address amount))
  | .withdrawOp backend amount =>
    (store, .txSubmitted (withdraw store backend address amount))
  | .waitForDepositOp backend txHash =>
    (store, .depositWaited (waitForDeposit backend txHash))

/-- Run a sequence of operations, threading the store. -/
def runOps (address erc20Address : Addr) : StateStore → List Op → StateStore
  | store, [] => store
  | store, op :: rest => runOps address erc20Address (runOp address erc20Address store op).1 rest

/-- The amount an operation contributes to the total-issued counter: the
`amount` argument of a successful `Issue`, `0` for everything else. -/
def issueContribution (address : Addr) (store : StateStore) : Op → Int
  | .issueOp backend signFn b amount send =>
    match (issue store backend address signFn b amount send).2 with
    | .ok _ => amount
    | .error _ => 0
  | _ => 0

/-- The sum of the amounts of the successful issuances in a sequence. -/
def issuedSum (address erc20Address : Addr) : StateStore → List Op → Int
  | _, [] => 0
  | store, op :: rest =>
    issueContribution address store op +
      issuedSum address erc20Address (runOp address erc20Address store op).1 rest

/-- One `Issue` call moves the counter by exactly its contribution: a
successful call adds `amount`, any failing path leaves the counter value
unchanged. -/
theorem totalIssued_issue_step (store : StateStore) (backend : ChainBackend)
    (address b : Addr) (signFn : Cheque → Except Err (List Nat))
    (send : SignedCheque → Except Err Unit) (amount t : Int)
    (h : totalIssued store = .ok t) :
    totalIssued (issue store backend address signFn b amount send).1 =
      .ok (t + (match (issue store backend address signFn b amount send).2 with
                | .ok _ => amount
                | .error _ => 0)) := by
  cases hab : availableBalance store backend with
  | error e => simp [issue, hab, h]
  | ok avail =>
    by_cases hlt : avail < amount
    · simp [issue, hab, hlt, h]
    · cases hbase : chequePayoutBaseline store b with
      | error e => simp [issue, hab, hlt, hbase, h]
      | ok base =>
        cases hsig : signFn ⟨address, base + amount, b⟩ with
        | error e => simp [issue, hab, hlt, hbase, hsig, h]
        | ok sig =>
          cases hsend : send ⟨⟨address, base + amount, b⟩, sig⟩ with
          | error e => simp [issue, hab, hlt, hbase, hsig, hsend, h]
          | ok u =>
            cases u
            rw [issue_success_eq store backend address b signFn send amount avail base t sig
              hab hlt hbase hsig hsend h]
            simp [totalIssued_put_counter]

/-- Running any operation sequence from a counter reading `t` leaves the
counter at `t` plus the sum of the successful issuance amounts. -/
theorem totalIssued_runOps (address erc20Address : Addr) (ops : List Op) :
    ∀ (store : StateStore) (t : Int), totalIssued store = .ok t →
      totalIssued (runOps address erc20Address store ops) =
        .ok (t + issuedSum address erc20Address store ops) := by
  induction ops with
  | nil => intro store t h; simpa [runOps, issuedSum] using h
  | cons op rest ih =>
    intro store t h
    cases op with
    | issueOp backend signFn b amount send =>
      have hstep := totalIssued_issue_step store backend address b signFn send amount t h
      have := ih (issue store backend address signFn b amount send).1
        (t + (match (issue store backend address signFn b amount send).2 with
              | .ok _ => amount
              | .error _ => 0)) hstep
      simp only [runOps, issuedSum, runOp, issueContribution]
      rw [this]
      congr 1
      omega
    | availableBalanceOp backend =>
      have := ih store t h
      simp only [runOps, issuedSum, runOp, issueContribution]
      rw [this]
      congr 1
      omega
    | lastChequeOp b =>
      have := ih store t h
      simp only [runOps, issuedSum, runOp, issueContribution]
      rw [this]
      congr 1
      omega
    | lastChequesOp =>
      have := ih store t h
      simp only [runOps, issuedSum, runOp, issueContribution]
      rw [this]
      congr 1
      omega
    | depositOp backend amount =>
      have := ih store t h
      simp only [runOps, issuedSum, runOp, issueContribution]
      rw [this]
      congr 1
      omega
    | withdrawOp backend amount =>
      have := ih store t h
      simp only [runOps, issuedSum, runOp, issueContribution]
      rw [this]
      congr 1
      omega
    | waitForDepositOp backend txHash =>
      have := ih store t h
      simp only [runOps, issuedSum, runOp, issueContribution]
      rw [this]
      congr 1
      omega

/-- C5: starting from a store with no total-issued counter (it is created
lazily at zero), after any sequence of operations the counter reads exactly
the sum of the `amount` arguments of the successful issuances in that
sequence: every successful `Issue` adds its amount and no other operation --
`AvailableBalance`, `LastCheque`, `LastCheques`, `Deposit`, `Withdraw`,
`WaitForDeposit`, or a failed `Issue` -- moves it. -/
theorem totalIssued_sum_of_successful_issues (address erc20Address : Addr)
    (store : StateStore) (ops : List Op)
    (h : store.get totalIssuedKey = none) :
    totalIssued (runOps address erc20Address store ops) =
      .ok (issuedSum address erc20Address store ops) := by
  have h0 : totalIssued store = .ok 0 := by unfold totalIssued; rw [h]
  have := totalIssued_runOps address erc20Address ops store 0 h0
  simpa using this

/-- Witness for C5: from an empty store, a successful issuance of 30, a
failed (out-of-funds) issuance of 80, a `LastCheque` read and a `Withdraw`
leave the counter at exactly 30. -/
theorem totalIssued_sum_of_successful_issues_witness :
    (⟨[]⟩ : StateStore).get totalIssuedKey = none ∧
    totalIssued (runOps (List.replicate 20 1) (List.replicate 20 2) ⟨[]⟩
        [.issueOp ⟨.ok 100, .ok 0, .ok 0, fun _ => .ok 0, fun _ => .ok ⟨1⟩⟩
           (fun _ => .ok [2]) (List.replicate 20 0) 30 (fun _ => .ok ()),
         .issueOp ⟨.ok 100, .ok 0, .ok 0, fun _ => .ok 0, fun _ => .ok ⟨1⟩⟩
           (fun _ => .ok [2]) (List.replicate 20 3) 80 (fun _ => .ok ()),
         .lastChequeOp (List.replicate 20 0),
         .withdrawOp ⟨.ok 100, .ok 0, .ok 0, fun _ => .ok 5, fun _ => .ok ⟨1⟩⟩ 10]) =
      .ok (issuedSum (List.replicate 20 1) (List.replicate 20 2) ⟨[]⟩
        [.issueOp ⟨.ok 100, .ok 0, .ok 0, fun _ => .ok 0, fun _ => .ok ⟨1⟩⟩
           (fun _ => .ok [2]) (List.replicate 20 0) 30 (fun _ => .ok ()),
         .issueOp ⟨.ok 100, .ok 0, .ok 0, fun _ => .ok 0, fun _ => .ok ⟨1⟩⟩
           (fun _ => .ok [2]) (List.replicate 20 3) 80 (fun _ => .ok ()),
         .lastChequeOp (List.replicate 20 0),
         .withdrawOp ⟨.ok 100, .ok 0, .ok 0, fun _ => .ok 5, fun _ => .ok ⟨1⟩⟩ 10]) ∧
    issuedSum (List.replicate 20 1) (List.replicate 20 2) ⟨[]⟩
        [.issueOp ⟨.ok 100, .ok 0, .ok 0, fun _ => .ok 0, fun _ => .ok ⟨1⟩⟩
           (fun _ => .ok [2]) (List.replicate 20 0) 30 (fun _ => .ok ()),
         .issueOp ⟨.ok 100, .ok 0, .ok 0, fun _ => .ok 0, fun _ => .ok ⟨1⟩⟩
           (fun _ => .ok [2]) (List.replicate 20 3) 80 (fun _ => .ok ()),
         .lastChequeOp (List.replicate 20 0),
         .withdrawOp ⟨.ok 100, .ok 0, .ok 0, fun _ => .ok 5, fun _ => .ok ⟨1⟩⟩ 10] = 30 := by
  refine ⟨rfl, ?_, by decide⟩
  exact totalIssued_sum_of_successful_issues (List.replicate 20 1) (List.replicate 20 2)
    ⟨[]⟩ _ rfl

/-! ## C6: corrupt keys abort the enumeration -/

/-- If any visited key fails beneficiary decoding, the `LastCheques` loop ends
in an error, whatever has been accumulated so far. -/
theorem lastChequesLoop_abort (store : StateStore) :
    ∀ (kvs : List (List Char × StoreVal)) (acc : List (Addr × SignedCheque)),
      (∃ kv ∈ kvs, (keyBeneficiary kv.1 lastIssuedKeyBase).isOk = false) →
      ∃ e, lastChequesLoop store kvs acc = .error e := by
  intro kvs
  induction kvs with
  | nil =>
    intro acc h
    obtain ⟨kv, hmem, _⟩ := h
    exact absurd hmem (List.not_mem_nil kv)
  | cons kv0 rest ih =>
    obtain ⟨key, val⟩ := kv0
    intro acc h
    cases hkb : keyBeneficiary key lastIssuedKeyBase with
    | error e0 => exact ⟨.parseKey key, by simp [lastChequesLoop, hkb]⟩
    | ok addr =>
      have hrest : ∃ kv ∈ rest, (keyBeneficiary kv.1 lastIssuedKeyBase).isOk = false := by
        obtain ⟨kv, hmem, hbad⟩ := h
        rcases List.mem_cons.mp hmem with heq | hmem2
        · subst heq
          rw [hkb] at hbad
          simp [Except.isOk, Except.toBool] at hbad
        · exact ⟨kv, hmem2, hbad⟩
      by_cases hc : containsAddr acc addr
      · obtain ⟨e, he⟩ := ih acc hrest
        exact ⟨e, by simp [lastChequesLoop, hkb, hc, he]⟩
      · cases hlc : lastCheque store addr with
        | error e => exact ⟨e, by simp [lastChequesLoop, hkb, hc, hlc]⟩
        | ok lc =>
          obtain ⟨e, he⟩ := ih (acc ++ [(addr, lc)]) hrest
          exact ⟨e, by simp [lastChequesLoop, hkb, hc, hlc, he]⟩

/-- C6: whenever some store key carrying the reserved last-issued-cheque base
fails to decode to a beneficiary, `LastCheques` returns an error for the whole
enumeration: no partial map is ever produced. -/
theorem lastCheques_corrupt_key_aborts (store : StateStore)
    (h : ∃ kv ∈ store.iterate lastIssuedKeyBase,
           (keyBeneficiary kv.1 lastIssuedKeyBase).isOk = false) :
    ∃ e, lastCheques store = .error e := by
  unfold lastCheques
  exact lastChequesLoop_abort store _ [] h

/-- Witness for C6: a store whose only prefixed key repeats the reserved base
(so `strings.SplitAfter` yields three parts) makes `LastCheques` fail. -/
theorem lastCheques_corrupt_key_aborts_witness :
    (∃ kv ∈ StateStore.iterate ⟨[(lastIssuedKeyBase ++ lastIssuedKeyBase, .vRaw [7])]⟩
        lastIssuedKeyBase, (keyBeneficiary kv.1 lastIssuedKeyBase).isOk = false) ∧
    (∃ e, lastCheques ⟨[(lastIssuedKeyBase ++ lastIssuedKeyBase, .vRaw [7])]⟩ = .error e) := by
  refine ⟨by decide, ?_⟩
  exact lastCheques_corrupt_key_aborts ⟨[(lastIssuedKeyBase ++ lastIssuedKeyBase, .vRaw [7])]⟩
    (by decide)

/-! ## C8: withdraw solvency check -/

/-- C8: with the available balance defined, `Withdraw` fails with
`ErrInsufficientFunds` when `amount` exceeds it -- for every transaction
submitter, so no transaction can have been submitted -- and otherwise submits
the packed `withdraw` call to the chequebook contract and returns the
submitter's result. -/
theorem withdraw_insufficient_funds_check (store : StateStore) (backend : ChainBackend)
    (address : Addr) (amount avail : Int)
    (hab : availableBalance store backend = .ok avail) :
    (avail < amount →
       ∀ sendF : TxRequest → Except Err TxHash,
         withdraw store
           ⟨backend.balance, backend.totalPaidOut, backend.ownerTokenBalance, sendF,
            backend.waitForReceipt⟩ address amount = .error .insufficientFunds) ∧
    (¬ avail < amount →
       withdraw store backend address amount =
         backend.send ⟨address, .withdrawCall amount, 0⟩) := by
  constructor
  · intro hlt sendF
    have hab2 : availableBalance store
        ⟨backend.balance, backend.totalPaidOut, backend.ownerTokenBalance, sendF,
         backend.waitForReceipt⟩ = .ok avail := by
      simpa [availableBalance] using hab
    simp [withdraw, hab2, hlt]
  · intro hge
    simp [withdraw, hab, hge]

/-- Witness for C8: with available balance 10, withdrawing 20 fails with
`ErrInsufficientFunds` while withdrawing 5 submits the transaction and
returns its hash. -/
theorem withdraw_insufficient_funds_check_witness :
    withdraw ⟨[]⟩ ⟨.ok 10, .ok 0, .ok 0, fun _ => .ok 9, fun _ => .ok ⟨1⟩⟩
        (List.replicate 20 1) 20 = .error .insufficientFunds ∧
    withdraw ⟨[]⟩ ⟨.ok 10, .ok 0, .ok 0, fun _ => .ok 9, fun _ => .ok ⟨1⟩⟩
        (List.replicate 20 1) 5 = .ok 9 := by
  constructor
  · exact (withdraw_insufficient_funds_check ⟨[]⟩
      ⟨.ok 10, .ok 0, .ok 0, fun _ => .ok 9, fun _ => .ok ⟨1⟩⟩
      (List.replicate 20 1) 20 10 rfl).1 (by decide) (fun _ => .ok 9)
  · exact (withdraw_insufficient_funds_check ⟨[]⟩
      ⟨.ok 10, .ok 0, .ok 0, fun _ => .ok 9, fun _ => .ok ⟨1⟩⟩
      (List.replicate 20 1) 5 10 rfl).2 (by decide)

/-! ## C9: last-cheque lookup -/

/-- C9: `LastCheque` maps an absent ledger entry to the distinguished
`ErrNoCheque`; a stored cheque entry is returned as the stored value (read
back as a `SignedCheque`); and a stored value that fails to decode yields
that decoding failure unmodified, which is never `ErrNoCheque`. -/
theorem lastCheque_noCheque_spec (store : StateStore) (b : Addr) :
    (store.get (lastIssuedChequeKey b) = none → lastCheque store b = .error .noCheque) ∧
    (∀ c, store.get (lastIssuedChequeKey b) = some (.vCheque c) →
       lastCheque store b = .ok ⟨c, []⟩) ∧
    (∀ v e, store.get (lastIssuedChequeKey b) = some v →
       decodeSignedCheque v = .error e →
       lastCheque store b = .error e ∧ e ≠ .noCheque) := by
  refine ⟨?_, ?_, ?_⟩
  · intro h
    unfold lastCheque
    rw [h]
  · intro c h
    unfold lastCheque
    rw [h]
    rfl
  · intro v e h hd
    have he : e = Err.decode := by
      cases v with
      | vCheque c => simp [decodeSignedCheque] at hd
      | vInt n => injection hd with h1; exact h1.symm
      | vRaw bs => injection hd with h1; exact h1.symm
    subst he
    refine ⟨?_, by simp⟩
    unfold lastCheque
    rw [h]
    exact hd

/-- Witness for C9: an empty store yields `ErrNoCheque`; a store holding a
cheque for the beneficiary returns it; a store holding an undecodable value at
the beneficiary's key yields the decode failure, not `ErrNoCheque`. -/
theorem lastCheque_noCheque_spec_witness :
    lastCheque ⟨[]⟩ (List.replicate 20 0) = .error .noCheque ∧
    lastCheque ⟨[(lastIssuedChequeKey (List.replicate 20 0),
        .vCheque ⟨List.replicate 20 1, 30, List.replicate 20 0⟩)]⟩ (List.replicate 20 0) =
      .ok ⟨⟨List.replicate 20 1, 30, List.replicate 20 0⟩, []⟩ ∧
    lastCheque ⟨[(lastIssuedChequeKey (List.replicate 20 0), .vRaw [1, 2])]⟩
        (List.replicate 20 0) = .error .decode := by
  refine ⟨(lastCheque_noCheque_spec ⟨[]⟩ (List.replicate 20 0)).1 rfl, ?_, ?_⟩
  · exact (lastCheque_noCheque_spec _ (List.replicate 20 0)).2.1
      ⟨List.replicate 20 1, 30, List.replicate 20 0⟩ rfl
  · exact ((lastCheque_noCheque_spec
      ⟨[(lastIssuedChequeKey (List.replicate 20 0), .vRaw [1, 2])]⟩
      (List.replicate 20 0)).2.2 (.vRaw [1, 2]) .decode rfl rfl).1

/-! ## Round trip: canonical keys decode back to their beneficiary -/

theorem hasLead_append (p s : List Char) : hasLead p (p ++ s) = true := by
  induction p with
  | nil => rfl
  | cons c pt ih => simp [hasLead, ih]

theorem hasLead_mem (p : List Char) :
    ∀ s : List Char, hasLead p s = true → ∀ x ∈ p, x ∈ s := by
  induction p with
  | nil => intro s _ x hx; exact absurd hx (List.not_mem_nil x)
  | cons a pt ih =>
    intro s h x hx
    cases s with
    | nil => simp [hasLead] at h
    | cons c ct =>
      rw [hasLead, Bool.and_eq_true, decide_eq_true_iff] at h
      obtain ⟨rfl, h2⟩ := h
      rcases List.mem_cons.mp hx with rfl | hx2
      · exact List.mem_cons_self _ _
      · exact List.mem_cons_of_mem _ (ih ct h2 x hx2)

theorem findSub_none_of_not_mem (pat : List Char) (x : Char) (hx : x ∈ pat) :
    ∀ s : List Char, x ∉ s → findSub s pat = none := by
  intro s
  induction s with
  | nil =>
    intro _
    cases pat with
    | nil => exact absurd hx (List.not_mem_nil x)
    | cons a pt => rfl
  | cons c ct ih =>
    intro hs
    have hlead : hasLead pat (c :: ct) = false := by
      by_contra hcon
      rw [Bool.not_eq_false] at hcon
      exact hs (hasLead_mem pat (c :: ct) hcon x hx)
    rw [findSub, hlead]
    simp only [Bool.false_eq_true, if_false]
    rw [ih (fun hx2 => hs (List.mem_cons_of_mem _ hx2))]
    rfl

theorem findSub_zero_of_hasLead (pat s : List Char) (hne : pat ≠ [])
    (h : hasLead pat s = true) : findSub s pat = some 0 := by
  cases s with
  | nil =>
    cases pat with
    | nil => exact absurd rfl hne
    | cons a pt => simp [hasLead] at h
  | cons c ct => simp [findSub, h]

theorem splitAfterAux_of_none (pat s : List Char) (h : findSub s pat = none) :
    ∀ fuel, splitAfterAux pat fuel s = [s] := by
  intro fuel
  cases fuel with
  | zero => rfl
  | succ f => simp [splitAfterAux, h]

theorem splitAfter_clean (base sfx : List Char) (hne : base ≠ [])
    (hnone : findSub sfx base = none) :
    splitAfter (base ++ sfx) base = [base, sfx] := by
  obtain ⟨c, bt, rfl⟩ : ∃ c bt, base = c :: bt := by
    cases base with
    | nil => exact absurd rfl hne
    | cons c bt => exact ⟨c, bt, rfl⟩
  unfold splitAfter
  have hfind : findSub ((c :: bt) ++ sfx) (c :: bt) = some 0 :=
    findSub_zero_of_hasLead _ _ hne (hasLead_append _ _)
  have hlen : ((c :: bt) ++ sfx).length = (bt.length + sfx.length) + 1 := by
    simp only [List.length_append, List.length_cons]
    omega
  rw [hlen]
  simp only [splitAfterAux, hfind, Nat.zero_add]
  rw [List.take_left, List.drop_left]
  rw [splitAfterAux_of_none _ _ hnone]

theorem hexDigitChar_ne_special : ∀ n, n < 16 →
    hexDigitChar n ≠ '_' ∧ hexDigitChar n ≠ 'x' ∧ hexDigitChar n ≠ 'X' := by decide

theorem hexCharVal_hexDigitChar : ∀ n, n < 16 → hexCharVal (hexDigitChar n) = some n := by
  decide

theorem hexEncode_cons (y : Nat) (t : List Nat) :
    hexEncode (y :: t) = hexDigitChar (y / 16) :: hexDigitChar (y % 16) :: hexEncode t := by
  simp [hexEncode, encodeByte]

theorem hexEncode_length (bs : List Nat) : (hexEncode bs).length = 2 * bs.length := by
  induction bs with
  | nil => rfl
  | cons y t ih =>
    rw [hexEncode_cons]
    simp only [List.length_cons, ih]
    omega

theorem underscore_not_mem_hexEncode (bs : List Nat) (h : ∀ y ∈ bs, y < 256) :
    '_' ∉ hexEncode bs := by
  intro hx
  unfold hexEncode at hx
  obtain ⟨l, hl, hxl⟩ := List.mem_flatten.mp hx
  obtain ⟨y, hy, rfl⟩ := List.mem_map.mp hl
  have hy256 := h y hy
  unfold encodeByte at hxl
  rcases List.mem_cons.mp hxl with h1 | h2
  · exact (hexDigitChar_ne_special (y / 16) (by omega)).1 h1.symm
  · rcases List.mem_cons.mp h2 with h3 | h4
    · exact (hexDigitChar_ne_special (y % 16) (by omega)).1 h3.symm
    · exact absurd h4 (List.not_mem_nil _)

theorem decodeHexBytes_hexEncode (bs : List Nat) (h : ∀ y ∈ bs, y < 256) :
    decodeHexBytes (hexEncode bs) = bs := by
  induction bs with
  | nil => rfl
  | cons y t ih =>
    have hy := h y (List.mem_cons_self _ _)
    rw [hexEncode_cons, decodeHexBytes,
      hexCharVal_hexDigitChar (y / 16) (by omega), hexCharVal_hexDigitChar (y % 16) (by omega)]
    rw [ih (fun z hz => h z (List.mem_cons_of_mem _ hz))]
    show (16 * (y / 16) + y % 16) :: t = y :: t
    rw [Nat.div_add_mod]

theorem stripHexMark_hexEncode (y : Nat) (t : List Nat) (_hy : y < 256) :
    stripHexMark (hexEncode (y :: t)) = hexEncode (y :: t) := by
  rw [hexEncode_cons, stripHexMark]
  rw [if_neg]
  rintro ⟨-, h2 | h2⟩
  · exact (hexDigitChar_ne_special (y % 16) (by omega)).2.1 h2
  · exact (hexDigitChar_ne_special (y % 16) (by omega)).2.2 h2

theorem bytesToAddress_of_length (bs : List Nat) (h : bs.length = 20) :
    bytesToAddress bs = bs := by
  simp [bytesToAddress, h]

theorem hexToAddress_hexEncode (b : Addr) (hv : validAddr b) :
    hexToAddress (hexEncode b) = b := by
  obtain ⟨hlen, hbytes⟩ := hv
  obtain ⟨y, t, rfl⟩ : ∃ y t, b = y :: t := by
    cases b with
    | nil => simp at hlen
    | cons y t => exact ⟨y, t, rfl⟩
  unfold hexToAddress fromHex
  rw [stripHexMark_hexEncode y t (hbytes y (List.mem_cons_self _ _))]
  rw [if_neg (by rw [hexEncode_length]; omega)]
  rw [decodeHexBytes_hexEncode _ hbytes]
  exact bytesToAddress_of_length _ hlen

theorem keyBeneficiary_roundTrip (b : Addr) (hv : validAddr b) :
    keyBeneficiary (lastIssuedChequeKey b) lastIssuedKeyBase = .ok b := by
  unfold keyBeneficiary lastIssuedChequeKey
  have hnone : findSub (hexEncode b) lastIssuedKeyBase = none :=
    findSub_none_of_not_mem lastIssuedKeyBase '_' (by decide) (hexEncode b)
      (underscore_not_mem_hexEncode b hv.2)
  rw [splitAfter_clean lastIssuedKeyBase (hexEncode b) (by decide) hnone]
  simp [hexToAddress_hexEncode b hv]

/-! ## C7: the enumeration on well-formed and on merely parseable stores -/

theorem containsAddr_iff (m : List (Addr × SignedCheque)) (a : Addr) :
    containsAddr m a = true ↔ ∃ sc, (a, sc) ∈ m := by
  unfold containsAddr
  rw [List.any_eq_true]
  constructor
  · rintro ⟨⟨a1, sc1⟩, hp, hpa⟩
    rw [decide_eq_true_iff] at hpa
    exact ⟨sc1, by rw [← hpa]; exact hp⟩
  · rintro ⟨sc, hsc⟩
    exact ⟨(a, sc), hsc, by simp⟩

theorem not_mem_map_fst_of_not_contains (acc : List (Addr × SignedCheque)) (b : Addr)
    (hc : ¬ containsAddr acc b = true) : b ∉ acc.map Prod.fst := by
  intro hb
  obtain ⟨⟨a1, sc1⟩, hp, heq⟩ := List.mem_map.mp hb
  refine hc ((containsAddr_iff acc b).mpr ⟨sc1, ?_⟩)
  simpa [← heq] using hp

/-- Invariant proof for the `LastCheques` loop on a store whose prefixed keys
are all canonical keys of beneficiaries with decodable entries: the loop
succeeds, its result has pairwise distinct beneficiaries, each mapped value is
that beneficiary's `LastCheque` result, the accumulator is preserved, and
every beneficiary decoded from a remaining key ends up in the result. -/
theorem lastChequesLoop_wellformed (store : StateStore)
    (hWF : ∀ kv ∈ store.entries, hasLead lastIssuedKeyBase kv.1 = true →
       ∃ b c, validAddr b ∧ kv.1 = lastIssuedChequeKey b ∧
         store.get kv.1 = some (.vCheque c)) :
    ∀ (kvs : List (List Char × StoreVal)) (acc : List (Addr × SignedCheque)),
      (∀ kv ∈ kvs, kv ∈ store.entries ∧ hasLead lastIssuedKeyBase kv.1 = true) →
      (∀ p ∈ acc, lastCheque store p.1 = .ok p.2) →
      (acc.map Prod.fst).Nodup →
      ∃ m, lastChequesLoop store kvs acc = .ok m ∧
        (m.map Prod.fst).Nodup ∧
        (∀ p ∈ m, lastCheque store p.1 = .ok p.2) ∧
        (∀ p ∈ acc, p ∈ m) ∧
        (∀ kv ∈ kvs, ∀ b2, keyBeneficiary kv.1 lastIssuedKeyBase = .ok b2 →
           ∃ sc, (b2, sc) ∈ m) := by
  intro kvs
  induction kvs with
  | nil =>
    intro acc _ hacc hnd
    exact ⟨acc, rfl, hnd, hacc, fun p hp => hp,
      fun kv hkv => absurd hkv (List.not_mem_nil kv)⟩
  | cons kv0 rest ih =>
    obtain ⟨key, val⟩ := kv0
    intro acc hkvs hacc hnd
    obtain ⟨hmem, hlead⟩ := hkvs (key, val) (List.mem_cons_self _ _)
    obtain ⟨b, c, hvb, hkey, hget⟩ := hWF (key, val) hmem hlead
    have hkb : keyBeneficiary key lastIssuedKeyBase = .ok b := by
      rw [show key = lastIssuedChequeKey b from hkey]
      exact keyBeneficiary_roundTrip b hvb
    have hrest : ∀ kv ∈ rest, kv ∈ store.entries ∧ hasLead lastIssuedKeyBase kv.1 = true :=
      fun kv hkv => hkvs kv (List.mem_cons_of_mem _ hkv)
    by_cases hc : containsAddr acc b = true
    · obtain ⟨m, hrun, hndm, hsound, hsub, hcov⟩ := ih acc hrest hacc hnd
      refine ⟨m, by simp [lastChequesLoop, hkb, hc, hrun], hndm, hsound, hsub, ?_⟩
      intro kv hkv b2 hkb2
      rcases List.mem_cons.mp hkv with heq | hm2
      · subst heq
        rw [hkb] at hkb2
        injection hkb2 with hb2
        subst hb2
        obtain ⟨sc, hsc⟩ := (containsAddr_iff acc b).mp hc
        exact ⟨sc, hsub _ hsc⟩
      · exact hcov kv hm2 b2 hkb2
    · have hlc : lastCheque store b = .ok ⟨c, []⟩ := by
        unfold lastCheque
        rw [← hkey]
        rw [show store.get key = some (.vCheque c) from hget]
        rfl
      have hacc2 : ∀ p ∈ acc ++ [(b, (⟨c, []⟩ : SignedCheque))],
          lastCheque store p.1 = .ok p.2 := by
        intro p hp
        rcases List.mem_append.mp hp with h1 | h2
        · exact hacc p h1
        · rw [List.mem_singleton] at h2
          subst h2
          exact hlc
      have hnd2 : ((acc ++ [(b, (⟨c, []⟩ : SignedCheque))]).map Prod.fst).Nodup := by
        rw [List.map_append]
        rw [List.nodup_append]
        refine ⟨hnd, by simp, ?_⟩
        intro x hx hx2
        simp only [List.map_cons, List.map_nil, List.mem_singleton] at hx2
        subst hx2
        exact not_mem_map_fst_of_not_contains acc x hc hx
      obtain ⟨m, hrun, hndm, hsound, hsub, hcov⟩ :=
        ih (acc ++ [(b, (⟨c, []⟩ : SignedCheque))]) hrest hacc2 hnd2
      refine ⟨m, by simp [lastChequesLoop, hkb, hc, hlc, hrun], hndm, hsound,
        fun p hp => hsub p (List.mem_append_left _ hp), ?_⟩
      intro kv hkv b2 hkb2
      rcases List.mem_cons.mp hkv with heq | hm2
      · subst heq
        rw [hkb] at hkb2
        injection hkb2 with hb2
        subst hb2
        exact ⟨⟨c, []⟩, hsub _ (List.mem_append_right _ (List.mem_singleton.mpr rfl))⟩
      · exact hcov kv hm2 b2 hkb2

/-- C7 (amended): when every store key carrying the reserved base is the
canonical key of a (valid) beneficiary whose stored entry decodes as a cheque,
`LastCheques` succeeds and returns a map with pairwise distinct beneficiaries
in which every entry is that beneficiary's `LastCheque` result and every
beneficiary with a stored ledger entry appears; repeated keys for an
already-collected beneficiary are skipped by the loop rather than re-fetched
(the membership test on the result precedes the fetch in the loop body). -/
theorem lastCheques_wellformed_spec (store : StateStore)
    (hWF : ∀ kv ∈ store.entries, hasLead lastIssuedKeyBase kv.1 = true →
       ∃ b c, validAddr b ∧ kv.1 = lastIssuedChequeKey b ∧
         store.get kv.1 = some (.vCheque c)) :
    ∃ m, lastCheques store = .ok m ∧
      (m.map Prod.fst).Nodup ∧
      (∀ p ∈ m, lastCheque store p.1 = .ok p.2) ∧
      (∀ b, validAddr b → (store.get (lastIssuedChequeKey b)).isSome = true →
         ∃ sc, (b, sc) ∈ m) := by
  obtain ⟨m, hrun, hndm, hsound, _hsub, hcov⟩ :=
    lastChequesLoop_wellformed store hWF (store.iterate lastIssuedKeyBase) []
      (fun kv hkv => by
        unfold StateStore.iterate at hkv
        have h1 := List.mem_filter.mp hkv
        exact ⟨h1.1, h1.2⟩)
      (fun p hp => absurd hp (List.not_mem_nil p))
      List.nodup_nil
  refine ⟨m, hrun, hndm, hsound, ?_⟩
  intro b hvb hsome
  obtain ⟨v, hv⟩ := Option.isSome_iff_exists.mp hsome
  obtain ⟨kv, hmem, hk1, _hk2⟩ := get_some_exists_entry store _ v hv
  have hlead : hasLead lastIssuedKeyBase kv.1 = true := by
    rw [hk1]
    exact hasLead_append _ _
  have hin : kv ∈ store.iterate lastIssuedKeyBase :=
    List.mem_filter.mpr ⟨hmem, hlead⟩
  refine hcov kv hin b ?_
  rw [hk1]
  exact keyBeneficiary_roundTrip b hvb

/-- Counterexample to C7 as stated: in the store whose single prefixed key is
the reserved base followed by `"zz"`, every key parses (the source's
`common.HexToAddress` never fails, so `keyBeneficiary` accepts the suffix and
decodes it to the zero address), yet `LastCheques` returns the `ErrNoCheque`
error instead of a map: parseability of all keys does not suffice for the
claimed enumeration result. -/
theorem lastCheques_parse_ok_yet_error :
    (∀ kv ∈ StateStore.iterate
        ⟨[(lastIssuedKeyBase ++ ['z', 'z'],
           .vCheque ⟨List.replicate 20 1, 5, List.replicate 20 0⟩)]⟩ lastIssuedKeyBase,
       (keyBeneficiary kv.1 lastIssuedKeyBase).isOk = true) ∧
    lastCheques ⟨[(lastIssuedKeyBase ++ ['z', 'z'],
        .vCheque ⟨List.replicate 20 1, 5, List.replicate 20 0⟩)]⟩ = .error .noCheque := by
  exact ⟨by decide, by rfl⟩

/-- Witness for the amended C7: a store holding canonical entries for two
beneficiaries plus a duplicate key for the first yields a successful map in
which each beneficiary appears exactly once with its `LastCheque` value. -/
theorem lastCheques_wellformed_spec_witness :
    ∃ m, lastCheques ⟨[(lastIssuedChequeKey (List.replicate 20 0),
          .vCheque ⟨List.replicate 20 9, 11, List.replicate 20 0⟩),
         (lastIssuedChequeKey (List.replicate 19 0 ++ [1]),
          .vCheque ⟨List.replicate 20 9, 22, List.replicate 19 0 ++ [1]⟩),
         (lastIssuedChequeKey (List.replicate 20 0),
          .vCheque ⟨List.replicate 20 9, 33, List.replicate 20 0⟩)]⟩ = .ok m ∧
      (m.map Prod.fst).Nodup ∧
      (∀ p ∈ m, lastCheque ⟨[(lastIssuedChequeKey (List.replicate 20 0),
          .vCheque ⟨List.replicate 20 9, 11, List.replicate 20 0⟩),
         (lastIssuedChequeKey (List.replicate 19 0 ++ [1]),
          .vCheque ⟨List.replicate 20 9, 22, List.replicate 19 0 ++ [1]⟩),
         (lastIssuedChequeKey (List.replicate 20 0),
          .vCheque ⟨List.replicate 20 9, 33, List.replicate 20 0⟩)]⟩ p.1 = .ok p.2) ∧
      (∀ b, validAddr b →
         ((⟨[(lastIssuedChequeKey (List.replicate 20 0),
             .vCheque ⟨List.replicate 20 9, 11, List.replicate 20 0⟩),
            (lastIssuedChequeKey (List.replicate 19 0 ++ [1]),
             .vCheque ⟨List.replicate 20 9, 22, List.replicate 19 0 ++ [1]⟩),
            (lastIssuedChequeKey (List.replicate 20 0),
             .vCheque ⟨List.replicate 20 9, 33, List.replicate 20 0⟩)]⟩ : StateStore).get
           (lastIssuedChequeKey b)).isSome = true →
         ∃ sc, (b, sc) ∈ m) := by
  refine lastCheques_wellformed_spec _ ?_
  intro kv hkv hlead
  simp only [List.mem_cons, List.not_mem_nil, or_false] at hkv
  rcases hkv with rfl | rfl | rfl
  · exact ⟨List.replicate 20 0, ⟨List.replicate 20 9, 11, List.replicate 20 0⟩,
      by decide, rfl, by decide⟩
  · exact ⟨List.replicate 19 0 ++ [1], ⟨List.replicate 20 9, 22, List.replicate 19 0 ++ [1]⟩,
      by decide, rfl, by decide⟩
  · exact ⟨List.replicate 20 0, ⟨List.replicate 20 9, 11, List.replicate 20 0⟩,
      by decide, rfl, by decide⟩

end Chequebook
